import Mathlib

/-!
Shallow embedding of `compute_standings` from `pickleball_streamlit_app.py`.

The Python function receives a DataFrame of matches (columns `team_a`,
`team_b`, `score_a`, `score_b`) and a list of team names.  It builds a
dict keyed by team name with zeroed counters, tallies every match row in
order, derives the point differential, and returns the table sorted by
`Pts` then `PD`, both descending (pandas multi-column `sort_values`,
which is a stable lexicographic sort).

Integers are modelled as `Int` (Python ints are unbounded).  The dict is
modelled as an association list in insertion order; a Python dict keyed
by team has at most one entry per key, and the dict comprehension on the
team list keeps the first occurrence position of each distinct team, so
an update may be modelled as mapping the matching entries.  A lookup of
a missing key raises `KeyError` in Python; here it is the explicit error
case of `Except`, raised at the same point of the iteration.
-/

/-- One row of the `matches_df` DataFrame, restricted to the columns
`compute_standings` reads. -/
structure MatchResult where
  team_a : String
  team_b : String
  score_a : Int
  score_b : Int
deriving DecidableEq

/-- The per-team accumulator record `{'Pld', 'W', 'L', 'PF', 'PA', 'Pts'}`. -/
@[ext]
structure TeamAcc where
  pld : Int
  w : Int
  l : Int
  pf : Int
  pa : Int
  pts : Int
deriving DecidableEq

namespace TeamAcc

def add (x y : TeamAcc) : TeamAcc :=
  ⟨x.pld + y.pld, x.w + y.w, x.l + y.l, x.pf + y.pf, x.pa + y.pa, x.pts + y.pts⟩

instance : Zero TeamAcc := ⟨⟨0, 0, 0, 0, 0, 0⟩⟩

instance : Add TeamAcc := ⟨TeamAcc.add⟩

@[simp] theorem add_pld (x y : TeamAcc) : (x + y).pld = x.pld + y.pld := rfl

@[simp] theorem add_w (x y : TeamAcc) : (x + y).w = x.w + y.w := rfl

@[simp] theorem add_l (x y : TeamAcc) : (x + y).l = x.l + y.l := rfl

@[simp] theorem add_pf (x y : TeamAcc) : (x + y).pf = x.pf + y.pf := rfl

@[simp] theorem add_pa (x y : TeamAcc) : (x + y).pa = x.pa + y.pa := rfl

@[simp] theorem add_pts (x y : TeamAcc) : (x + y).pts = x.pts + y.pts := rfl

@[simp] theorem zero_pld : (0 : TeamAcc).pld = 0 := rfl

@[simp] theorem zero_w : (0 : TeamAcc).w = 0 := rfl

@[simp] theorem zero_l : (0 : TeamAcc).l = 0 := rfl

@[simp] theorem zero_pf : (0 : TeamAcc).pf = 0 := rfl

@[simp] theorem zero_pa : (0 : TeamAcc).pa = 0 := rfl

@[simp] theorem zero_pts : (0 : TeamAcc).pts = 0 := rfl

instance : AddCommMonoid TeamAcc where
  nsmul := nsmulRec
  add_assoc x y z := by ext <;> simp [Int.add_assoc]
  zero_add x := by ext <;> simp
  add_zero x := by ext <;> simp
  add_comm x y := by ext <;> simp [Int.add_comm]

end TeamAcc

/-- The tally dict `data`, in insertion order. -/
abbrev Dict := List (String × TeamAcc)

/-- First-occurrence lookup, i.e. Python `data[key]` returning `none`
where Python raises `KeyError`. -/
def dictGet : Dict → String → Option TeamAcc
  | [], _ => none
  | (k, v) :: rest, key => if k = key then some v else dictGet rest key

/-- Python `key in data`. -/
def dictContains (d : Dict) (key : String) : Bool :=
  (dictGet d key).isSome

/-- Python `data[key] = f(data[key])` (e.g. `data[a]['Pld'] += 1`).
Keys are unique in a Python dict, so mapping over the matching entries
updates exactly the one entry. -/
def dictUpd (d : Dict) (key : String) (f : TeamAcc → TeamAcc) : Dict :=
  d.map (fun p => if p.1 = key then (p.1, f p.2) else p)

/-- One step of the dict comprehension
`{team: {...zeroes...} for team in teams_list}`: a repeated key keeps
its first position (and the value is the same fresh zero record). -/
def insertTeam (d : Dict) (t : String) : Dict :=
  if dictContains d t then d else d ++ [(t, (0 : TeamAcc))]

/-- The initial accumulator dict built from `teams_list`. -/
def initData (teams : List String) : Dict :=
  teams.foldl insertTeam []

/-- The only failures `compute_standings` can produce, both `KeyError`s:
looking up a team absent from the accumulator dict, and looking up the
`PF` column on the column-less DataFrame built from an empty dict. -/
inductive TallyError where
  | keyError : String → TallyError
deriving DecidableEq

deriving instance DecidableEq for Except

/-- The body of the `for _, m in matches_df.iterrows()` loop.  Python
touches `data[a]` first, so a missing `team_a` raises before a missing
`team_b`; once both lookups succeed every following statement succeeds,
so checking both keys up front is observationally equal at the function
boundary.  The update chain mirrors the source statement by statement,
which also reproduces Python's behaviour when `team_a == team_b` (both
sequences of updates hit the same entry). -/
def tallyMatch (data : Dict) (m : MatchResult) : Except TallyError Dict :=
  if dictContains data m.team_a then
    if dictContains data m.team_b then
      let d1 := dictUpd data m.team_a (fun r => { r with pld := r.pld + 1 })
      let d2 := dictUpd d1 m.team_b (fun r => { r with pld := r.pld + 1 })
      let d3 := dictUpd d2 m.team_a (fun r => { r with pf := r.pf + m.score_a })
      let d4 := dictUpd d3 m.team_a (fun r => { r with pa := r.pa + m.score_b })
      let d5 := dictUpd d4 m.team_b (fun r => { r with pf := r.pf + m.score_b })
      let d6 := dictUpd d5 m.team_b (fun r => { r with pa := r.pa + m.score_a })
      if m.score_b < m.score_a then
        Except.ok (dictUpd (dictUpd (dictUpd d6
          m.team_a (fun r => { r with w := r.w + 1 }))
          m.team_b (fun r => { r with l := r.l + 1 }))
          m.team_a (fun r => { r with pts := r.pts + 2 }))
      else
        Except.ok (dictUpd (dictUpd (dictUpd d6
          m.team_b (fun r => { r with w := r.w + 1 }))
          m.team_a (fun r => { r with l := r.l + 1 }))
          m.team_b (fun r => { r with pts := r.pts + 2 }))
    else Except.error (TallyError.keyError m.team_b)
  else Except.error (TallyError.keyError m.team_a)

/-- One row of the returned DataFrame: the team name restored by
`reset_index`, the six tallied columns, and the derived
`PD = PF - PA`. -/
structure StandingsRow where
  team : String
  pld : Int
  w : Int
  l : Int
  pf : Int
  pa : Int
  pd : Int
  pts : Int
deriving DecidableEq

/-- `pd.DataFrame.from_dict(data, orient='index')` plus the derived `PD`
column: one row per dict entry, in dict order. -/
def buildRows (d : Dict) : List StandingsRow :=
  d.map (fun p => ⟨p.1, p.2.pld, p.2.w, p.2.l, p.2.pf, p.2.pa, p.2.pf - p.2.pa, p.2.pts⟩)

/-- The sort key of `df.sort_values(['Pts','PD'], ascending=False)`:
row `r` may precede row `s` when `r` is strictly better on `Pts`, or
tied on `Pts` and at least as good on `PD`. -/
def rowLe (r s : StandingsRow) : Bool :=
  decide (s.pts < r.pts) || (decide (r.pts = s.pts) && decide (s.pd ≤ r.pd))

/-- Stable insertion into a sorted list. -/
def insertSorted (r : StandingsRow) : List StandingsRow → List StandingsRow
  | [] => [r]
  | s :: rest => if rowLe r s then r :: s :: rest else s :: insertSorted r rest

/-- A stable sort by `rowLe`.  pandas' multi-column `sort_values` is a
stable lexicographic sort, and any two stable sorts with respect to the
same total preorder return the same list. -/
def sortRows : List StandingsRow → List StandingsRow
  | [] => []
  | r :: rest => insertSorted r (sortRows rest)

/-- `compute_standings(matches_df, teams_list)`.  After the tally loop,
`pd.DataFrame.from_dict(data, orient='index')` creates the
`Pld`..`Pts` columns only when `data` has at least one entry; on an
empty dict the resulting frame has no columns, so the next line
`df['PD'] = df['PF'] - df['PA']` raises `KeyError('PF')`.  With a
non-empty dict every column exists and the build, the `PD` derivation
and the sort all succeed. -/
def compute_standings (ms : List MatchResult) (teams : List String) :
    Except TallyError (List StandingsRow) := do
  let data ← ms.foldlM tallyMatch (initData teams)
  if data.isEmpty then Except.error (TallyError.keyError "PF")
  else pure (sortRows (buildRows data))

/-- The win/loss/points part of one match's contribution to team `k`. -/
def winDelta (m : MatchResult) (k : String) : TeamAcc :=
  if m.score_b < m.score_a then
    ⟨0, if k = m.team_a then 1 else 0, if k = m.team_b then 1 else 0,
     0, 0, if k = m.team_a then 2 else 0⟩
  else
    ⟨0, if k = m.team_b then 1 else 0, if k = m.team_a then 1 else 0,
     0, 0, if k = m.team_b then 2 else 0⟩

/-- One match's total additive contribution to the accumulator of team
`k` (covering `k` equal to either side, both, or neither). -/
def matchDelta (m : MatchResult) (k : String) : TeamAcc :=
  ⟨(if k = m.team_a then 1 else 0) + (if k = m.team_b then 1 else 0),
   0, 0,
   (if k = m.team_a then m.score_a else 0) + (if k = m.team_b then m.score_b else 0),
   (if k = m.team_a then m.score_b else 0) + (if k = m.team_b then m.score_a else 0),
   0⟩ + winDelta m k

/-- The summed contribution of a match list to team `k`. -/
def sumDelta (ms : List MatchResult) (k : String) : TeamAcc :=
  (ms.map (fun m => matchDelta m k)).sum

@[simp]
theorem sumDelta_nil (k : String) : sumDelta [] k = 0 := rfl

@[simp]
theorem sumDelta_cons (m : MatchResult) (ms : List MatchResult) (k : String) :
    sumDelta (m :: ms) k = matchDelta m k + sumDelta ms k := by
  simp [sumDelta]

theorem tallyMatch_ok_contains (d d' : Dict) (m : MatchResult)
    (h : tallyMatch d m = Except.ok d') :
    dictContains d m.team_a = true ∧ dictContains d m.team_b = true := by
  unfold tallyMatch at h
  by_cases ha : dictContains d m.team_a
  · by_cases hb : dictContains d m.team_b
    · exact ⟨ha, hb⟩
    · simp [ha, hb] at h
  · simp [ha] at h

theorem dictUpd_cons (p : String × TeamAcc) (l : Dict) (key : String)
    (f : TeamAcc → TeamAcc) :
    dictUpd (p :: l) key f =
      (if p.1 = key then (p.1, f p.2) else p) :: dictUpd l key f := rfl

/-- The update chain of the `scoreA > scoreB` branch adds exactly
`matchDelta` to every entry. -/
theorem winChainA_eq (m : MatchResult) (hs : m.score_b < m.score_a) (d : Dict) :
    dictUpd (dictUpd (dictUpd (dictUpd (dictUpd (dictUpd (dictUpd (dictUpd (dictUpd d
      m.team_a (fun r => { r with pld := r.pld + 1 }))
      m.team_b (fun r => { r with pld := r.pld + 1 }))
      m.team_a (fun r => { r with pf := r.pf + m.score_a }))
      m.team_a (fun r => { r with pa := r.pa + m.score_b }))
      m.team_b (fun r => { r with pf := r.pf + m.score_b }))
      m.team_b (fun r => { r with pa := r.pa + m.score_a }))
      m.team_a (fun r => { r with w := r.w + 1 }))
      m.team_b (fun r => { r with l := r.l + 1 }))
      m.team_a (fun r => { r with pts := r.pts + 2 })
    = d.map (fun p => (p.1, p.2 + matchDelta m p.1)) := by
  induction d with
  | nil => rfl
  | cons p rest ih =>
    obtain ⟨k, v⟩ := p
    by_cases hka : k = m.team_a
    · subst hka
      by_cases hkb : m.team_a = m.team_b
      · simp only [← hkb] at ih ⊢
        simp [dictUpd_cons, ih, matchDelta, winDelta, hs, ← hkb, List.cons.injEq,
          Prod.mk.injEq]
        all_goals (ext <;> simp <;> omega)
      · simp [dictUpd_cons, hkb, ih, matchDelta, winDelta, hs, List.cons.injEq,
          Prod.mk.injEq]
        all_goals (ext <;> simp <;> omega)
    · by_cases hkb : k = m.team_b
      · subst hkb
        simp [dictUpd_cons, hka, ih, matchDelta, winDelta, hs, List.cons.injEq,
          Prod.mk.injEq]
        all_goals (ext <;> simp <;> omega)
      · simp [dictUpd_cons, hka, hkb, ih, matchDelta, winDelta, hs,
          List.cons.injEq, Prod.mk.injEq]
        all_goals (ext <;> simp <;> omega)

/-- The update chain of the `else` (teamB wins) branch adds exactly
`matchDelta` to every entry. -/
theorem winChainB_eq (m : MatchResult) (hs : ¬m.score_b < m.score_a) (d : Dict) :
    dictUpd (dictUpd (dictUpd (dictUpd (dictUpd (dictUpd (dictUpd (dictUpd (dictUpd d
      m.team_a (fun r => { r with pld := r.pld + 1 }))
      m.team_b (fun r => { r with pld := r.pld + 1 }))
      m.team_a (fun r => { r with pf := r.pf + m.score_a }))
      m.team_a (fun r => { r with pa := r.pa + m.score_b }))
      m.team_b (fun r => { r with pf := r.pf + m.score_b }))
      m.team_b (fun r => { r with pa := r.pa + m.score_a }))
      m.team_b (fun r => { r with w := r.w + 1 }))
      m.team_a (fun r => { r with l := r.l + 1 }))
      m.team_b (fun r => { r with pts := r.pts + 2 })
    = d.map (fun p => (p.1, p.2 + matchDelta m p.1)) := by
  induction d with
  | nil => rfl
  | cons p rest ih =>
    obtain ⟨k, v⟩ := p
    by_cases hka : k = m.team_a
    · subst hka
      by_cases hkb : m.team_a = m.team_b
      · simp only [← hkb] at ih ⊢
        simp [dictUpd_cons, ih, matchDelta, winDelta, hs, ← hkb, List.cons.injEq,
          Prod.mk.injEq]
        all_goals (ext <;> simp <;> omega)
      · simp [dictUpd_cons, hkb, ih, matchDelta, winDelta, hs, List.cons.injEq,
          Prod.mk.injEq]
        all_goals (ext <;> simp <;> omega)
    · by_cases hkb : k = m.team_b
      · subst hkb
        simp [dictUpd_cons, hka, ih, matchDelta, winDelta, hs, List.cons.injEq,
          Prod.mk.injEq]
        all_goals (ext <;> simp <;> omega)
      · simp [dictUpd_cons, hka, hkb, ih, matchDelta, winDelta, hs,
          List.cons.injEq, Prod.mk.injEq]
        all_goals (ext <;> simp <;> omega)

/-- A successful loop body applies exactly the additive per-team
contribution of the match to every entry of the dict. -/
theorem tallyMatch_ok_eq (d d' : Dict) (m : MatchResult)
    (h : tallyMatch d m = Except.ok d') :
    d' = d.map (fun p => (p.1, p.2 + matchDelta m p.1)) := by
  obtain ⟨ha, hb⟩ := tallyMatch_ok_contains d d' m h
  unfold tallyMatch at h
  rw [ha, hb] at h
  by_cases hs : m.score_b < m.score_a <;>
    simp only [hs, if_true, if_false, ite_true, ite_false, Except.ok.injEq] at h
  · rw [← h]
    exact winChainA_eq m hs d
  · rw [← h]
    exact winChainB_eq m hs d

/-- Looking up any key after mapping over the values with a
key-dependent function. -/
theorem dictGet_map_delta (m : MatchResult) (d : Dict) (key : String) :
    dictGet (d.map (fun p => (p.1, p.2 + matchDelta m p.1))) key =
      (dictGet d key).map (fun v => v + matchDelta m key) := by
  induction d with
  | nil => rfl
  | cons p rest ih =>
    obtain ⟨k, v⟩ := p
    by_cases h : k = key
    · subst h; simp [dictGet]
    · simp [dictGet, h, ih]

/-- A successful match step does not change which keys the dict holds. -/
theorem tallyMatch_ok_contains_eq (d d' : Dict) (m : MatchResult)
    (h : tallyMatch d m = Except.ok d') (k : String) :
    dictContains d' k = dictContains d k := by
  rw [tallyMatch_ok_eq d d' m h]
  simp [dictContains, dictGet_map_delta]

theorem tallyMatch_ok_of_contains (d : Dict) (m : MatchResult)
    (ha : dictContains d m.team_a = true) (hb : dictContains d m.team_b = true) :
    ∃ d', tallyMatch d m = Except.ok d' := by
  unfold tallyMatch
  rw [ha, hb]
  by_cases hs : m.score_b < m.score_a <;> simp [hs]

/-- The tally loop, fully characterised: a successful run over the whole
match list adds the summed contributions to every entry. -/
theorem foldlM_tally_eq (ms : List MatchResult) :
    ∀ d d' : Dict, ms.foldlM tallyMatch d = Except.ok d' →
      d' = d.map (fun p => (p.1, p.2 + sumDelta ms p.1)) := by
  induction ms with
  | nil =>
    intro d d' h
    simp only [List.foldlM_nil, pure, Except.pure, Except.ok.injEq] at h
    subst h
    simp
  | cons m ms ih =>
    intro d d' h
    rw [List.foldlM_cons] at h
    cases h1 : tallyMatch d m with
    | error e => rw [h1] at h; simp [Bind.bind, Except.bind] at h
    | ok d1 =>
      rw [h1] at h
      have h2 : ms.foldlM tallyMatch d1 = Except.ok d' := h
      rw [ih d1 d' h2, tallyMatch_ok_eq d d1 m h1, List.map_map]
      refine List.map_congr_left (fun p _ => ?_)
      simp [Function.comp, add_assoc]

/-- The tally loop succeeds exactly when every match references two keys
present in the starting dict. -/
theorem foldlM_tally_ok_iff (ms : List MatchResult) :
    ∀ d : Dict, (∃ d', ms.foldlM tallyMatch d = Except.ok d') ↔
      ∀ m ∈ ms, dictContains d m.team_a = true ∧ dictContains d m.team_b = true := by
  induction ms with
  | nil =>
    intro d
    simp [List.foldlM_nil, pure, Except.pure]
  | cons m ms ih =>
    intro d
    constructor
    · rintro ⟨d', h⟩
      rw [List.foldlM_cons] at h
      cases h1 : tallyMatch d m with
      | error e => rw [h1] at h; simp [Bind.bind, Except.bind] at h
      | ok d1 =>
        rw [h1] at h
        have h2 : ms.foldlM tallyMatch d1 = Except.ok d' := h
        intro m' hm'
        rcases List.mem_cons.mp hm' with hm' | hm'
        · subst hm'; exact tallyMatch_ok_contains d d1 m' h1
        · have := ((ih d1).1 ⟨d', h2⟩) m' hm'
          rwa [tallyMatch_ok_contains_eq d d1 m h1 m'.team_a,
               tallyMatch_ok_contains_eq d d1 m h1 m'.team_b] at this
    · intro hall
      obtain ⟨ha, hb⟩ := hall m (List.mem_cons_self m ms)
      obtain ⟨d1, h1⟩ := tallyMatch_ok_of_contains d m ha hb
      have hrest : ∀ m' ∈ ms, dictContains d1 m'.team_a = true ∧
          dictContains d1 m'.team_b = true := by
        intro m' hm'
        have := hall m' (List.mem_cons_of_mem m hm')
        rwa [← tallyMatch_ok_contains_eq d d1 m h1 m'.team_a,
             ← tallyMatch_ok_contains_eq d d1 m h1 m'.team_b] at this
      obtain ⟨d', h2⟩ := (ih d1).2 hrest
      exact ⟨d', by rw [List.foldlM_cons, h1]; exact h2⟩

/-- The keys of the dict, in insertion order. -/
def dictKeys (d : Dict) : List String :=
  d.map Prod.fst

theorem dictGet_eq_none_iff (d : Dict) (k : String) :
    dictGet d k = none ↔ k ∉ dictKeys d := by
  induction d with
  | nil => simp [dictGet, dictKeys]
  | cons p rest ih =>
    obtain ⟨k', v⟩ := p
    by_cases h : k' = k
    · subst h; simp [dictGet, dictKeys]
    · simp [dictGet, dictKeys, h, ih, Ne.symm h]

theorem dictContains_iff_mem (d : Dict) (k : String) :
    dictContains d k = true ↔ k ∈ dictKeys d := by
  rw [dictContains, Option.isSome_iff_ne_none, ne_eq, dictGet_eq_none_iff]
  exact not_not

theorem dictKeys_insertTeam (d : Dict) (t : String) :
    dictKeys (insertTeam d t) =
      if dictContains d t then dictKeys d else dictKeys d ++ [t] := by
  unfold insertTeam
  by_cases h : dictContains d t <;> simp [h, dictKeys]

/-- The dict comprehension over the team list: keys are the distinct
team names in first-occurrence order, and every value starts at zero. -/
theorem initData_spec (teams : List String) :
    ∀ d : Dict, (dictKeys d).Nodup → (∀ p ∈ d, p.2 = (0 : TeamAcc)) →
      (dictKeys (teams.foldl insertTeam d)).Nodup ∧
      (∀ p ∈ teams.foldl insertTeam d, p.2 = (0 : TeamAcc)) ∧
      (∀ k, k ∈ dictKeys (teams.foldl insertTeam d) ↔ k ∈ dictKeys d ∨ k ∈ teams) := by
  induction teams with
  | nil =>
    intro d h1 h2
    refine ⟨h1, h2, fun k => ?_⟩
    simp
  | cons t ts ih =>
    intro d h1 h2
    rw [List.foldl_cons]
    have hnodup : (dictKeys (insertTeam d t)).Nodup := by
      rw [dictKeys_insertTeam]
      by_cases h : dictContains d t
      · simpa [h] using h1
      · have ht : t ∉ dictKeys d := by
          intro hmem
          exact h ((dictContains_iff_mem d t).2 hmem)
        have : (t :: dictKeys d).Nodup := List.nodup_cons.2 ⟨ht, h1⟩
        simpa [h] using ((List.perm_append_singleton t (dictKeys d)).nodup_iff).2 this
    have hzero : ∀ p ∈ insertTeam d t, p.2 = (0 : TeamAcc) := by
      intro p hp
      unfold insertTeam at hp
      by_cases h : dictContains d t
      · exact h2 p (by simpa [h] using hp)
      · have hp' : p ∈ d ∨ p = (t, (0 : TeamAcc)) := by simpa [h] using hp
        rcases hp' with hp' | hp'
        · exact h2 p hp'
        · rw [hp']
    obtain ⟨n1, n2, n3⟩ := ih (insertTeam d t) hnodup hzero
    have hmem : ∀ k, k ∈ dictKeys (insertTeam d t) ↔ k ∈ dictKeys d ∨ k = t := by
      intro k
      rw [dictKeys_insertTeam]
      by_cases h : dictContains d t
      · simp only [h, if_true]
        constructor
        · exact fun hk => Or.inl hk
        · rintro (hk | rfl)
          · exact hk
          · exact (dictContains_iff_mem d k).1 h
      · simp [h]
    refine ⟨n1, n2, fun k => ?_⟩
    rw [n3 k, hmem k, List.mem_cons]
    tauto

theorem initData_nodup (teams : List String) : (dictKeys (initData teams)).Nodup :=
  (initData_spec teams [] (by simp [dictKeys]) (by simp)).1

theorem initData_zero (teams : List String) :
    ∀ p ∈ initData teams, p.2 = (0 : TeamAcc) :=
  (initData_spec teams [] (by simp [dictKeys]) (by simp)).2.1

theorem initData_mem (teams : List String) (k : String) :
    k ∈ dictKeys (initData teams) ↔ k ∈ teams := by
  have := (initData_spec teams [] (by simp [dictKeys]) (by simp)).2.2 k
  simpa [dictKeys] using this

/-- The propositional form of `rowLe`. -/
def rowRel (r s : StandingsRow) : Prop :=
  s.pts < r.pts ∨ (r.pts = s.pts ∧ s.pd ≤ r.pd)

theorem rowLe_iff (r s : StandingsRow) : rowLe r s = true ↔ rowRel r s := by
  simp [rowLe, rowRel]

theorem rowRel_of_not (r s : StandingsRow) (h : ¬rowLe r s = true) : rowRel s r := by
  rw [rowLe_iff] at h
  unfold rowRel at h ⊢
  omega

theorem rowRel_trans (r s t : StandingsRow) (h1 : rowRel r s) (h2 : rowRel s t) :
    rowRel r t := by
  unfold rowRel at h1 h2 ⊢
  omega

theorem insertSorted_perm (r : StandingsRow) (l : List StandingsRow) :
    List.Perm (insertSorted r l) (r :: l) := by
  induction l with
  | nil => simp [insertSorted]
  | cons s rest ih =>
    unfold insertSorted
    by_cases h : rowLe r s
    · simp [h]
    · simp only [h, if_false, ite_false]
      exact ((ih.cons s).trans (List.Perm.swap r s rest))

theorem sortRows_perm (l : List StandingsRow) : List.Perm (sortRows l) l := by
  induction l with
  | nil => simp [sortRows]
  | cons r rest ih =>
    unfold sortRows
    exact (insertSorted_perm r (sortRows rest)).trans (ih.cons r)

theorem insertSorted_pairwise (r : StandingsRow) (l : List StandingsRow)
    (h : List.Pairwise rowRel l) : List.Pairwise rowRel (insertSorted r l) := by
  induction l with
  | nil => simp [insertSorted]
  | cons s rest ih =>
    rcases List.pairwise_cons.1 h with ⟨hs, hrest⟩
    unfold insertSorted
    by_cases hle : rowLe r s
    · simp only [hle, if_true, ite_true]
      refine List.pairwise_cons.2 ⟨?_, h⟩
      intro x hx
      rcases List.mem_cons.1 hx with rfl | hx
      · exact (rowLe_iff r x).1 hle
      · exact rowRel_trans r s x ((rowLe_iff r s).1 hle) (hs x hx)
    · simp only [hle, if_false, ite_false]
      refine List.pairwise_cons.2 ⟨?_, ih hrest⟩
      intro x hx
      have hx' : x ∈ r :: rest := (insertSorted_perm r rest).mem_iff.1 hx
      rcases List.mem_cons.1 hx' with h1 | hx'
      · rw [h1]; exact rowRel_of_not r s hle
      · exact hs x hx'

theorem sortRows_pairwise (l : List StandingsRow) :
    List.Pairwise rowRel (sortRows l) := by
  induction l with
  | nil => simp [sortRows]
  | cons r rest ih =>
    unfold sortRows
    exact insertSorted_pairwise r (sortRows rest) ih

/-- `compute_standings`, case by case: the tally loop's error
propagates, an empty dict fails on the missing `PF` column, a non-empty
dict is built into rows and sorted. -/
theorem compute_standings_eq (ms : List MatchResult) (teams : List String) :
    compute_standings ms teams =
      match ms.foldlM tallyMatch (initData teams) with
      | Except.error e => Except.error e
      | Except.ok [] => Except.error (TallyError.keyError "PF")
      | Except.ok (p :: rest) => Except.ok (sortRows (buildRows (p :: rest))) := by
  unfold compute_standings
  cases h : ms.foldlM tallyMatch (initData teams) with
  | error e => rfl
  | ok d => cases d <;> rfl

theorem compute_standings_ok_iff (ms : List MatchResult) (teams : List String)
    (t : List StandingsRow) :
    compute_standings ms teams = Except.ok t ↔
      ∃ d, ms.foldlM tallyMatch (initData teams) = Except.ok d ∧ d ≠ [] ∧
        t = sortRows (buildRows d) := by
  rw [compute_standings_eq]
  cases h : ms.foldlM tallyMatch (initData teams) with
  | error e => simp
  | ok d =>
    cases d with
    | nil => simp
    | cons p rest =>
      simp only [Except.ok.injEq]
      constructor
      · intro h'
        exact ⟨p :: rest, rfl, by simp, h'.symm⟩
      · rintro ⟨d', hd', hne, ht⟩
        subst hd'
        exact ht.symm

theorem sum_map_one (l : List MatchResult) :
    (l.map (fun _ => (1 : Int))).sum = (l.length : Int) := by
  induction l with
  | nil => simp
  | cons m ms ih => simp [ih]; omega

/-- An additive field of the summed deltas is the sum of that field of
the individual deltas. -/
theorem field_sum (f : TeamAcc → Int) (h0 : f 0 = 0)
    (hadd : ∀ x y, f (x + y) = f x + f y) (ms : List MatchResult) (k : String) :
    f (sumDelta ms k) = (ms.map (fun m => f (matchDelta m k))).sum := by
  induction ms with
  | nil => simpa using h0
  | cons m ms ih => simp [sumDelta_cons, hadd, ih]

/-- Exchanging a double list sum. -/
theorem sum_map_swap (K : List String) (ms : List MatchResult)
    (g : MatchResult → String → Int) :
    (K.map (fun k => (ms.map (fun m => g m k)).sum)).sum =
      (ms.map (fun m => (K.map (fun k => g m k)).sum)).sum := by
  induction ms with
  | nil => simp
  | cons m ms ih =>
    simp only [List.map_cons, List.sum_cons]
    rw [List.sum_map_add, ih]

/-- A sum over a duplicate-free key list of a function supported on the
two teams of a match. -/
theorem sum_support_pair (K : List String) (hn : K.Nodup) (a b : String)
    (ha : a ∈ K) (hb : b ∈ K) (g : String → Int)
    (hsupp : ∀ k, k ≠ a → k ≠ b → g k = 0) :
    (K.map g).sum = if a = b then g a else g a + g b := by
  rw [← List.sum_toFinset g hn]
  by_cases hab : a = b
  · subst hab
    rw [if_pos rfl]
    have hsub : ({a} : Finset String) ⊆ K.toFinset := by
      simp [Finset.singleton_subset_iff, List.mem_toFinset, ha]
    have hz : ∀ x ∈ K.toFinset, x ∉ ({a} : Finset String) → g x = 0 := by
      intro x _ hx
      have hxa : x ≠ a := by simpa using hx
      exact hsupp x hxa hxa
    rw [← Finset.sum_subset hsub hz, Finset.sum_singleton]
  · rw [if_neg hab]
    have hsub : ({a, b} : Finset String) ⊆ K.toFinset := by
      intro x hx
      rcases Finset.mem_insert.1 hx with h1 | h1
      · rw [h1]; exact List.mem_toFinset.2 ha
      · rw [Finset.mem_singleton] at h1; rw [h1]; exact List.mem_toFinset.2 hb
    have hz : ∀ x ∈ K.toFinset, x ∉ ({a, b} : Finset String) → g x = 0 := by
      intro x _ hx
      rw [Finset.mem_insert, Finset.mem_singleton] at hx
      push_neg at hx
      exact hsupp x hx.1 hx.2
    rw [← Finset.sum_subset hsub hz, Finset.sum_pair hab]

/-- A match contributes nothing to a team not playing in it. -/
theorem matchDelta_outside (m : MatchResult) (k : String)
    (ha : k ≠ m.team_a) (hb : k ≠ m.team_b) : matchDelta m k = 0 := by
  unfold matchDelta winDelta
  by_cases hs : m.score_b < m.score_a <;> simp [ha, hb, hs] <;> (ext <;> simp)

theorem sum_matchDelta_field (K : List String) (hn : K.Nodup) (m : MatchResult)
    (ha : m.team_a ∈ K) (hb : m.team_b ∈ K)
    (g : TeamAcc → Int) (h0 : g 0 = 0) :
    (K.map (fun k => g (matchDelta m k))).sum =
      if m.team_a = m.team_b then g (matchDelta m m.team_a)
      else g (matchDelta m m.team_a) + g (matchDelta m m.team_b) := by
  refine sum_support_pair K hn m.team_a m.team_b ha hb _ ?_
  intro k hka hkb
  rw [matchDelta_outside m k hka hkb, h0]

/-- Every match produces exactly one recorded win across the key list. -/
theorem sum_matchDelta_w (K : List String) (hn : K.Nodup) (m : MatchResult)
    (ha : m.team_a ∈ K) (hb : m.team_b ∈ K) :
    (K.map (fun k => (matchDelta m k).w)).sum = 1 := by
  rw [sum_matchDelta_field K hn m ha hb _ rfl]
  unfold matchDelta winDelta
  by_cases hab : m.team_a = m.team_b
  · by_cases hs : m.score_b < m.score_a <;> simp [hab, hs]
  · by_cases hs : m.score_b < m.score_a <;> simp [hab, hs, Ne.symm hab]

/-- Every match contributes `score_a + score_b` to total points scored. -/
theorem sum_matchDelta_pf (K : List String) (hn : K.Nodup) (m : MatchResult)
    (ha : m.team_a ∈ K) (hb : m.team_b ∈ K) :
    (K.map (fun k => (matchDelta m k).pf)).sum = m.score_a + m.score_b := by
  rw [sum_matchDelta_field K hn m ha hb _ rfl]
  unfold matchDelta winDelta
  by_cases hab : m.team_a = m.team_b
  · by_cases hs : m.score_b < m.score_a <;> simp [hab, hs] <;> omega
  · by_cases hs : m.score_b < m.score_a <;> simp [hab, hs, Ne.symm hab] <;> omega

/-- Every match contributes `score_b + score_a` to total points conceded. -/
theorem sum_matchDelta_pa (K : List String) (hn : K.Nodup) (m : MatchResult)
    (ha : m.team_a ∈ K) (hb : m.team_b ∈ K) :
    (K.map (fun k => (matchDelta m k).pa)).sum = m.score_b + m.score_a := by
  rw [sum_matchDelta_field K hn m ha hb _ rfl]
  unfold matchDelta winDelta
  by_cases hab : m.team_a = m.team_b
  · by_cases hs : m.score_b < m.score_a <;> simp [hab, hs] <;> omega
  · by_cases hs : m.score_b < m.score_a <;> simp [hab, hs, Ne.symm hab] <;> omega

/-- Every match contributes zero net point differential. -/
theorem sum_matchDelta_pd (K : List String) (hn : K.Nodup) (m : MatchResult)
    (ha : m.team_a ∈ K) (hb : m.team_b ∈ K) :
    (K.map (fun k => (matchDelta m k).pf - (matchDelta m k).pa)).sum = 0 := by
  have hz : ∀ k, k ≠ m.team_a → k ≠ m.team_b →
      (matchDelta m k).pf - (matchDelta m k).pa = 0 := by
    intro k hka hkb
    rw [matchDelta_outside m k hka hkb]
    simp
  rw [sum_support_pair K hn m.team_a m.team_b ha hb _ hz]
  unfold matchDelta winDelta
  by_cases hab : m.team_a = m.team_b
  · by_cases hs : m.score_b < m.score_a <;> simp [hab, hs] <;> omega
  · by_cases hs : m.score_b < m.score_a <;> simp [hab, hs, Ne.symm hab] <;> omega

theorem matchDelta_w_add_l (m : MatchResult) (k : String) :
    (matchDelta m k).w + (matchDelta m k).l = (matchDelta m k).pld := by
  unfold matchDelta winDelta
  by_cases hs : m.score_b < m.score_a <;> simp [hs] <;> omega

theorem sumDelta_w_add_l (ms : List MatchResult) (k : String) :
    (sumDelta ms k).w + (sumDelta ms k).l = (sumDelta ms k).pld := by
  induction ms with
  | nil => simp
  | cons m ms ih =>
    have := matchDelta_w_add_l m k
    simp only [sumDelta_cons, TeamAcc.add_w, TeamAcc.add_l, TeamAcc.add_pld]
    omega

/-- Reduction of a row-wise sum over the finished table to a double sum
of per-match contributions over the team keys. -/
theorem table_sum (ms : List MatchResult) (teams : List String) (d : Dict)
    (hd : ms.foldlM tallyMatch (initData teams) = Except.ok d)
    (f : StandingsRow → Int) (g : TeamAcc → Int)
    (hfg : ∀ k v, f ⟨k, v.pld, v.w, v.l, v.pf, v.pa, v.pf - v.pa, v.pts⟩ = g v)
    (h0 : g 0 = 0) (hadd : ∀ x y, g (x + y) = g x + g y) :
    ((sortRows (buildRows d)).map f).sum =
      (ms.map (fun m =>
        ((dictKeys (initData teams)).map (fun k => g (matchDelta m k))).sum)).sum := by
  rw [((sortRows_perm (buildRows d)).map f).sum_eq]
  rw [foldlM_tally_eq ms (initData teams) d hd]
  rw [buildRows, List.map_map, List.map_map]
  trans (List.map (fun p : String × TeamAcc => g (sumDelta ms p.1)) (initData teams)).sum
  · congr 1
    refine List.map_congr_left (fun p hp => ?_)
    have hz := initData_zero teams p hp
    simp [Function.comp, hz, hfg]
  · have h3 : (initData teams).map (fun p : String × TeamAcc => g (sumDelta ms p.1))
        = (dictKeys (initData teams)).map (fun k => g (sumDelta ms k)) := by
      simp [dictKeys, List.map_map]
    rw [h3]
    have h4 : (dictKeys (initData teams)).map (fun k => g (sumDelta ms k))
        = (dictKeys (initData teams)).map
            (fun k => (ms.map (fun m => g (matchDelta m k))).sum) := by
      refine List.map_congr_left (fun k _ => ?_)
      exact field_sum g h0 hadd ms k
    rw [h4, sum_map_swap]

/-- C1: For every match processed by `compute_standings`, if
`scoreA > scoreB` then `teamA` is credited the win (`wins += 1`,
`points += 2`) and `teamB` the loss (`losses += 1`); otherwise —
including the tie case `scoreA == scoreB` — `teamB` is credited the win
and the 2 points and `teamA` the loss, so a drawn score is resolved in
favor of `teamB`. -/
theorem C1_winner_determination (d d' : Dict) (m : MatchResult) (va vb : TeamAcc)
    (hne : m.team_a ≠ m.team_b)
    (hva : dictGet d m.team_a = some va) (hvb : dictGet d m.team_b = some vb)
    (h : tallyMatch d m = Except.ok d') :
    if m.score_b < m.score_a then
      dictGet d' m.team_a =
        some ⟨va.pld + 1, va.w + 1, va.l, va.pf + m.score_a, va.pa + m.score_b,
          va.pts + 2⟩ ∧
      dictGet d' m.team_b =
        some ⟨vb.pld + 1, vb.w, vb.l + 1, vb.pf + m.score_b, vb.pa + m.score_a, vb.pts⟩
    else
      dictGet d' m.team_b =
        some ⟨vb.pld + 1, vb.w + 1, vb.l, vb.pf + m.score_b, vb.pa + m.score_a,
          vb.pts + 2⟩ ∧
      dictGet d' m.team_a =
        some ⟨va.pld + 1, va.w, va.l + 1, va.pf + m.score_a, va.pa + m.score_b,
          va.pts⟩ := by
  rw [tallyMatch_ok_eq d d' m h, dictGet_map_delta, dictGet_map_delta, hva, hvb]
  by_cases hs : m.score_b < m.score_a
  · rw [if_pos hs]
    unfold matchDelta winDelta
    constructor <;> simp [hs, hne, Ne.symm hne] <;> (ext <;> simp <;> omega)
  · rw [if_neg hs]
    unfold matchDelta winDelta
    constructor <;> simp [hs, hne, Ne.symm hne] <;> (ext <;> simp <;> omega)

/-- Witness for C1: the match X beats Y 11–5 over the fresh dict on
teams X, Y credits X with the win and Y with the loss. -/
theorem C1_winner_determination_witness :
    dictGet [("X", (⟨1, 1, 0, 11, 5, 2⟩ : TeamAcc)), ("Y", ⟨1, 0, 1, 5, 11, 0⟩)] "X" =
      some ⟨1, 1, 0, 11, 5, 2⟩ ∧
    dictGet [("X", (⟨1, 1, 0, 11, 5, 2⟩ : TeamAcc)), ("Y", ⟨1, 0, 1, 5, 11, 0⟩)] "Y" =
      some ⟨1, 0, 1, 5, 11, 0⟩ := by
  have h := C1_winner_determination (initData ["X", "Y"])
      [("X", ⟨1, 1, 0, 11, 5, 2⟩), ("Y", ⟨1, 0, 1, 5, 11, 0⟩)]
      ⟨"X", "Y", 11, 5⟩ 0 0 (by decide) (by decide) (by decide) (by decide)
  rw [if_pos (by decide)] at h
  simpa using h

/-- C2: the standings table returned by `compute_standings` is sorted
descending by the composite key `(points, pointDiff)`: any two adjacent
rows have either strictly more points in the earlier row, or equal
points and a pointDiff at least as large in the earlier row. -/
theorem C2_table_sorted (ms : List MatchResult) (teams : List String)
    (t : List StandingsRow) (h : compute_standings ms teams = Except.ok t) :
    List.Chain' (fun r s => s.pts < r.pts ∨ (r.pts = s.pts ∧ s.pd ≤ r.pd)) t := by
  obtain ⟨d, hd, hne, ht⟩ := (compute_standings_ok_iff ms teams t).1 h
  rw [ht]
  exact (sortRows_pairwise (buildRows d)).chain'

/-- Witness for C2: the three-way cycle A beats B 11–5, B beats C 11–3,
C beats A 11–9 leaves all teams on 2 points and orders them purely by
point differential, highest first. -/
theorem C2_table_sorted_witness :
    List.Chain' (fun r s : StandingsRow => s.pts < r.pts ∨ (r.pts = s.pts ∧ s.pd ≤ r.pd))
      [⟨"A", 2, 1, 1, 20, 16, 4, 2⟩, ⟨"B", 2, 1, 1, 16, 14, 2, 2⟩,
       ⟨"C", 2, 1, 1, 14, 20, -6, 2⟩] :=
  C2_table_sorted [⟨"A", "B", 11, 5⟩, ⟨"B", "C", 11, 3⟩, ⟨"C", "A", 11, 9⟩]
    ["A", "B", "C"]
    [⟨"A", 2, 1, 1, 20, 16, 4, 2⟩, ⟨"B", 2, 1, 1, 16, 14, 2, 2⟩,
     ⟨"C", 2, 1, 1, 14, 20, -6, 2⟩] (by decide)

/-- C3 (code evaluation at the failing input): a match referencing the
team "Y", absent from the team list, makes `compute_standings` fail with
the `KeyError` of the unchecked accumulator lookup `data['Y']`; there is
no explicit validation step and no `ReferenceError`. -/
theorem C3_unknown_team_keyerror :
    compute_standings [⟨"X", "Y", 11, 5⟩] ["X"] =
      Except.error (TallyError.keyError "Y") := by decide

/-- C4 (code evaluation at the failing input): with the empty team list
and the empty match list (the only consistent one), the accumulator
dict is empty, the DataFrame built from it has no columns, and deriving
`PD` fails with `KeyError('PF')`; no empty table is returned. -/
theorem C4_empty_teams_keyerror :
    compute_standings [] [] = Except.error (TallyError.keyError "PF") := by decide

/-- C5: in every table returned by `compute_standings` for a match list
referencing only known teams, each row satisfies
`wins + losses == played`, and the wins summed over all rows equal the
number of matches (every match has exactly one winner, no draws
recorded). -/
theorem C5_conservation (ms : List MatchResult) (teams : List String)
    (t : List StandingsRow) (h : compute_standings ms teams = Except.ok t) :
    (∀ r ∈ t, r.w + r.l = r.pld) ∧
    (t.map (fun r => r.w)).sum = (ms.length : Int) := by
  obtain ⟨d, hd, hne, ht⟩ := (compute_standings_ok_iff ms teams t).1 h
  have hall := (foldlM_tally_ok_iff ms (initData teams)).1 ⟨d, hd⟩
  subst ht
  refine ⟨?_, ?_⟩
  · intro r hr
    have hr' : r ∈ buildRows d := ((sortRows_perm (buildRows d)).mem_iff).1 hr
    rw [foldlM_tally_eq ms (initData teams) d hd, buildRows, List.map_map] at hr'
    obtain ⟨p, hp, hpr⟩ := List.mem_map.1 hr'
    have hz := initData_zero teams p hp
    have h6 := sumDelta_w_add_l ms p.1
    rw [← hpr]
    simp [Function.comp, hz]
    omega
  · have h5 := table_sum ms teams d hd (fun r => r.w) (fun v => v.w)
      (fun k v => rfl) rfl (fun x y => rfl)
    rw [h5]
    have h6 : ms.map (fun m =>
          ((dictKeys (initData teams)).map (fun k => (matchDelta m k).w)).sum)
        = ms.map (fun _ => (1 : Int)) := by
      refine List.map_congr_left (fun m hm => ?_)
      obtain ⟨h1, h2⟩ := hall m hm
      exact sum_matchDelta_w (dictKeys (initData teams)) (initData_nodup teams) m
        ((dictContains_iff_mem _ _).1 h1) ((dictContains_iff_mem _ _).1 h2)
    rw [h6, sum_map_one]

/-- Witness for C5 at the three-match example X beats Y 11–5, Z beats Y
11–7, X beats Z 11–3. -/
theorem C5_conservation_witness :
    (∀ r ∈ ([⟨"X", 2, 2, 0, 22, 8, 14, 4⟩, ⟨"Z", 2, 1, 1, 14, 18, -4, 2⟩,
        ⟨"Y", 2, 0, 2, 12, 22, -10, 0⟩] : List StandingsRow),
      r.w + r.l = r.pld) ∧
    (([⟨"X", 2, 2, 0, 22, 8, 14, 4⟩, ⟨"Z", 2, 1, 1, 14, 18, -4, 2⟩,
        ⟨"Y", 2, 0, 2, 12, 22, -10, 0⟩] : List StandingsRow).map
      (fun r => r.w)).sum =
      (([⟨"X", "Y", 11, 5⟩, ⟨"Y", "Z", 7, 11⟩,
         ⟨"Z", "X", 3, 11⟩] : List MatchResult).length : Int) :=
  C5_conservation [⟨"X", "Y", 11, 5⟩, ⟨"Y", "Z", 7, 11⟩, ⟨"Z", "X", 3, 11⟩]
    ["X", "Y", "Z"]
    [⟨"X", 2, 2, 0, 22, 8, 14, 4⟩, ⟨"Z", 2, 1, 1, 14, 18, -4, 2⟩,
     ⟨"Y", 2, 0, 2, 12, 22, -10, 0⟩] (by decide)

/-- C6: for every team set, valid match list and permutation of it,
`compute_standings` yields the same standings rows (here: the very same
table, which in particular is the same multiset of rows). -/
theorem C6_match_order_irrelevant (ms ms' : List MatchResult) (teams : List String)
    (t : List StandingsRow) (h : compute_standings ms teams = Except.ok t)
    (hp : List.Perm ms ms') :
    compute_standings ms' teams = Except.ok t := by
  obtain ⟨d, hd, hne, ht⟩ := (compute_standings_ok_iff ms teams t).1 h
  have hall := (foldlM_tally_ok_iff ms (initData teams)).1 ⟨d, hd⟩
  have hall' : ∀ m ∈ ms', dictContains (initData teams) m.team_a = true ∧
      dictContains (initData teams) m.team_b = true :=
    fun m hm => hall m (hp.mem_iff.2 hm)
  obtain ⟨d', hd'⟩ := (foldlM_tally_ok_iff ms' (initData teams)).2 hall'
  have hde : d' = d := by
    rw [foldlM_tally_eq ms (initData teams) d hd,
        foldlM_tally_eq ms' (initData teams) d' hd']
    refine List.map_congr_left (fun p _ => ?_)
    have hsd : sumDelta ms p.1 = sumDelta ms' p.1 :=
      (hp.map (fun m => matchDelta m p.1)).sum_eq
    rw [hsd]
  exact (compute_standings_ok_iff ms' teams t).2
    ⟨d', hd', by rw [hde]; exact hne, by rw [hde]; exact ht⟩

/-- Witness for C6: the three-match example in a permuted order returns
the identical table. -/
theorem C6_match_order_irrelevant_witness :
    compute_standings [⟨"Y", "Z", 7, 11⟩, ⟨"X", "Y", 11, 5⟩, ⟨"Z", "X", 3, 11⟩]
        ["X", "Y", "Z"] =
      Except.ok [⟨"X", 2, 2, 0, 22, 8, 14, 4⟩, ⟨"Z", 2, 1, 1, 14, 18, -4, 2⟩,
        ⟨"Y", 2, 0, 2, 12, 22, -10, 0⟩] :=
  C6_match_order_irrelevant
    [⟨"X", "Y", 11, 5⟩, ⟨"Y", "Z", 7, 11⟩, ⟨"Z", "X", 3, 11⟩]
    [⟨"Y", "Z", 7, 11⟩, ⟨"X", "Y", 11, 5⟩, ⟨"Z", "X", 3, 11⟩]
    ["X", "Y", "Z"]
    [⟨"X", 2, 2, 0, 22, 8, 14, 4⟩, ⟨"Z", 2, 1, 1, 14, 18, -4, 2⟩,
     ⟨"Y", 2, 0, 2, 12, 22, -10, 0⟩]
    (by decide) (by decide)

/-- C7 (code evaluation at the failing input): a match with
`score_a = -1` is not rejected; `compute_standings` runs to completion
and returns a table with the negative score tallied, instead of failing
with a `ValidationError`. -/
theorem C7_negative_score_accepted :
    compute_standings [⟨"X", "Y", -1, 5⟩] ["X", "Y"] =
      Except.ok [⟨"Y", 1, 1, 0, 5, -1, 6, 2⟩, ⟨"X", 1, 0, 1, -1, 5, -6, 0⟩] := by
  decide

/-- C8 (code evaluation at the failing input): a self-match
`teamA == teamB` is not rejected; `compute_standings` tallies it against
the single team (two games played, one win, one loss, both scores on
both sides) instead of failing with a `ValidationError`. -/
theorem C8_self_play_accepted :
    compute_standings [⟨"X", "X", 11, 5⟩] ["X", "Y"] =
      Except.ok [⟨"X", 2, 1, 1, 16, 16, 0, 2⟩, ⟨"Y", 0, 0, 0, 0, 0, 0, 0⟩] := by
  decide

/-- C9: in every table returned by `compute_standings` for a match list
referencing only known teams, total points-for equals total
points-against; equivalently the point differentials sum to zero. -/
theorem C9_points_balance (ms : List MatchResult) (teams : List String)
    (t : List StandingsRow) (h : compute_standings ms teams = Except.ok t) :
    (t.map (fun r => r.pf)).sum = (t.map (fun r => r.pa)).sum ∧
    (t.map (fun r => r.pd)).sum = 0 := by
  obtain ⟨d, hd, hne, ht⟩ := (compute_standings_ok_iff ms teams t).1 h
  have hall := (foldlM_tally_ok_iff ms (initData teams)).1 ⟨d, hd⟩
  subst ht
  refine ⟨?_, ?_⟩
  · have hpf := table_sum ms teams d hd (fun r => r.pf) (fun v => v.pf)
      (fun k v => rfl) rfl (fun x y => rfl)
    have hpa := table_sum ms teams d hd (fun r => r.pa) (fun v => v.pa)
      (fun k v => rfl) rfl (fun x y => rfl)
    rw [hpf, hpa]
    refine congrArg List.sum (List.map_congr_left (fun m hm => ?_))
    obtain ⟨h1, h2⟩ := hall m hm
    rw [sum_matchDelta_pf (dictKeys (initData teams)) (initData_nodup teams) m
          ((dictContains_iff_mem _ _).1 h1) ((dictContains_iff_mem _ _).1 h2),
        sum_matchDelta_pa (dictKeys (initData teams)) (initData_nodup teams) m
          ((dictContains_iff_mem _ _).1 h1) ((dictContains_iff_mem _ _).1 h2)]
    omega
  · have hpd := table_sum ms teams d hd (fun r => r.pd) (fun v => v.pf - v.pa)
      (fun k v => rfl) (by simp) (fun x y => by simp; omega)
    rw [hpd]
    have h6 : ms.map (fun m => ((dictKeys (initData teams)).map
          (fun k => (matchDelta m k).pf - (matchDelta m k).pa)).sum)
        = ms.map (fun _ => (0 : Int)) := by
      refine List.map_congr_left (fun m hm => ?_)
      obtain ⟨h1, h2⟩ := hall m hm
      exact sum_matchDelta_pd (dictKeys (initData teams)) (initData_nodup teams) m
        ((dictContains_iff_mem _ _).1 h1) ((dictContains_iff_mem _ _).1 h2)
    rw [h6]
    simp

/-- Witness for C9 at the three-match example: 48 points scored on each
side of the ledger, differentials summing to zero. -/
theorem C9_points_balance_witness :
    (([⟨"X", 2, 2, 0, 22, 8, 14, 4⟩, ⟨"Z", 2, 1, 1, 14, 18, -4, 2⟩,
        ⟨"Y", 2, 0, 2, 12, 22, -10, 0⟩] : List StandingsRow).map
      (fun r => r.pf)).sum =
      (([⟨"X", 2, 2, 0, 22, 8, 14, 4⟩, ⟨"Z", 2, 1, 1, 14, 18, -4, 2⟩,
          ⟨"Y", 2, 0, 2, 12, 22, -10, 0⟩] : List StandingsRow).map
        (fun r => r.pa)).sum ∧
    (([⟨"X", 2, 2, 0, 22, 8, 14, 4⟩, ⟨"Z", 2, 1, 1, 14, 18, -4, 2⟩,
        ⟨"Y", 2, 0, 2, 12, 22, -10, 0⟩] : List StandingsRow).map
      (fun r => r.pd)).sum = 0 :=
  C9_points_balance [⟨"X", "Y", 11, 5⟩, ⟨"Y", "Z", 7, 11⟩, ⟨"Z", "X", 3, 11⟩]
    ["X", "Y", "Z"]
    [⟨"X", 2, 2, 0, 22, 8, 14, 4⟩, ⟨"Z", 2, 1, 1, 14, 18, -4, 2⟩,
     ⟨"Y", 2, 0, 2, 12, 22, -10, 0⟩] (by decide)

/-- C10: the table has exactly one row per distinct team identifier of
the supplied list; duplicates collapse into a single row. -/
theorem C10_one_row_per_distinct_team (ms : List MatchResult) (teams : List String)
    (t : List StandingsRow) (h : compute_standings ms teams = Except.ok t) :
    List.Perm (t.map (fun r => r.team)) teams.dedup := by
  obtain ⟨d, hd, hne, ht⟩ := (compute_standings_ok_iff ms teams t).1 h
  have h1 : List.Perm (t.map (fun r => r.team)) ((buildRows d).map (fun r => r.team)) := by
    rw [ht]
    exact (sortRows_perm (buildRows d)).map _
  have h2 : (buildRows d).map (fun r => r.team) = dictKeys d := by
    simp [buildRows, dictKeys, List.map_map]
  have h3 : dictKeys d = dictKeys (initData teams) := by
    rw [foldlM_tally_eq ms (initData teams) d hd]
    simp [dictKeys, List.map_map]
  rw [h2, h3] at h1
  refine h1.trans (List.perm_of_nodup_nodup_toFinset_eq (initData_nodup teams)
    (teams.nodup_dedup) ?_)
  ext x
  simp [List.mem_toFinset, initData_mem, List.mem_dedup]

/-- Witness for C10: a duplicated team list ["X", "Y", "X"] still yields
one row for X and one for Y. -/
theorem C10_one_row_per_distinct_team_witness :
    List.Perm
      (([⟨"X", 1, 1, 0, 11, 5, 6, 2⟩, ⟨"Y", 1, 0, 1, 5, 11, -6, 0⟩] :
        List StandingsRow).map (fun r => r.team))
      (["X", "Y", "X"] : List String).dedup :=
  C10_one_row_per_distinct_team [⟨"X", "Y", 11, 5⟩] ["X", "Y", "X"]
    [⟨"X", 1, 1, 0, 11, 5, 6, 2⟩, ⟨"Y", 1, 0, 1, 5, 11, -6, 0⟩] (by decide)

